import Mathlib

/-!
Shallow embedding of the `repeat` card store (`src/crud.rs`).

The store persists one row per card hash in a SQLite table `cards` and
offers four operations: `add_card`, `add_cards_batch`, `card_exists`,
`due_today`, plus the `DB::new` schema bootstrap.  The table is modelled
as a list of records in insertion order (SQLite's natural row order for
an insert-only table); timestamps and dates are modelled as `Nat` / `Int`
instants, opaque to the store.  Ambient inputs of the Rust code
(`chrono::Utc::now()`, `chrono::Local::now().date_naive()`, injected
storage failures) become explicit parameters.
-/

namespace Repeat

/-- Modelled from the spec: the external card type (`crate::card::Card`,
whose source file is not part of the visible sources) — the store only
uses its `card_hash` identity field (§3 of the spec: a stable
content-derived identifier string, cloneable). -/
structure Card where
  card_hash : String
deriving DecidableEq, Repr

/-- One persisted row of the `cards` table, columns as in `schema.sql` /
spec §3.  `added_at` (an RFC3339 instant) is modelled as `Nat`,
`due_date` (a calendar date) as `Int`; the nullable real scheduling
fields are opaque to this store (it only ever writes NULL to them), so
their carrier type is irrelevant and `Int` is used. -/
structure CardRecord where
  card_hash : String
  added_at : Nat
  last_reviewed_at : Option Nat
  stability : Option Int
  difficulty : Option Int
  interval_raw : Option Int
  interval_days : Int
  due_date : Option Int
  review_count : Int
deriving DecidableEq, Repr

/-- The committed contents of the `cards` table, rows in natural order. -/
structure DBState where
  cards : List CardRecord
deriving DecidableEq, Repr

/-- Number of rows of a row list whose `card_hash` equals `h`
(`SELECT COUNT(1) FROM cards WHERE card_hash = ?`). -/
def recListCount (l : List CardRecord) (h : String) : Nat :=
  (l.filter (fun r => r.card_hash == h)).length

/-- Number of rows with hash `h` in the committed table. -/
def countHash (db : DBState) (h : String) : Nat :=
  recListCount db.cards h

/-- The `COUNT(1) ... WHERE card_hash = ?` probe run against a row list
(`DB::card_exists` runs it on the pool, i.e. on committed rows). -/
def poolExists (committed : List CardRecord) (card : Card) : Bool :=
  decide (0 < recListCount committed card.card_hash)

/-- `DB::card_exists`: `SELECT COUNT(1) FROM cards WHERE card_hash = ?`,
then `count > 0`.  A pure read: it takes the state and returns a `Bool`. -/
def card_exists (db : DBState) (card : Card) : Bool :=
  poolExists db.cards card

/-- The row inserted for a fresh card: `VALUES (?, ?, NULL, NULL, NULL,
NULL, 0, NULL, 0)` with the hash and the captured timestamp bound. -/
def newRecord (hash : String) (now : Nat) : CardRecord :=
  { card_hash := hash
    added_at := now
    last_reviewed_at := none
    stability := none
    difficulty := none
    interval_raw := none
    interval_days := 0
    due_date := none
    review_count := 0 }

/-- `DB::add_card`: return unchanged if the hash exists, else insert one
row stamped with this call's freshly captured `now`. -/
def add_card (db : DBState) (card : Card) (now : Nat) : DBState :=
  if card_exists db card then db
  else { cards := db.cards ++ [newRecord card.card_hash now] }

/-- Connection-pool view plus the journal of the one open transaction:
other connections (the pool) see only `committed`; the transaction's own
statements see `committed ++ journal`. -/
structure SqliteState where
  committed : List CardRecord
  journal : List CardRecord
deriving DecidableEq, Repr

/-- An `INSERT` executed on the open transaction.  `inject` models an
underlying storage failure for this statement.  Modelled from the spec
for the constraint part: `schema.sql` is not among the visible sources,
and spec §6 declares `card_hash` a unique text primary key, so inserting
a hash already visible to the transaction (committed or journalled) is a
uniqueness violation, i.e. an error. -/
def txInsert (s : SqliteState) (r : CardRecord) (inject : Bool) :
    Except Unit SqliteState :=
  if inject then Except.error ()
  else if (s.committed ++ s.journal).any (fun x => x.card_hash == r.card_hash) then
    Except.error ()
  else Except.ok { s with journal := s.journal ++ [r] }

/-- The per-card loop of `DB::add_cards_batch`.  The existence check runs
via `self.card_exists` on the pool, so it consults only `committed`; the
insert runs on the transaction.  `failOn i` injects a storage failure on
the statement for the `i`-th card.  On error the state reached at the
failing statement is returned (the `?` operator propagates it before
`commit`). -/
def batchLoop (now : Nat) (failOn : Nat → Bool) :
    List Card → Nat → SqliteState → Except SqliteState SqliteState
  | [], _, s => Except.ok s
  | card :: rest, i, s =>
    if poolExists s.committed card then batchLoop now failOn rest (i + 1) s
    else
      match txInsert s (newRecord card.card_hash now) (failOn i) with
      | Except.ok s' => batchLoop now failOn rest (i + 1) s'
      | Except.error _ => Except.error s

/-- `tx.commit()`: the journal becomes committed. -/
def commitTx (s : SqliteState) : SqliteState :=
  { committed := s.committed ++ s.journal, journal := [] }

/-- `DB::add_cards_batch`: begin a transaction, capture `now` once, run
the loop, commit at the end; any error is propagated by `?`. -/
def add_cards_batch (db : DBState) (cards : List Card) (now : Nat)
    (failOn : Nat → Bool) : Except Unit DBState :=
  match batchLoop now failOn cards 0 { committed := db.cards, journal := [] } with
  | Except.ok s => Except.ok { cards := (commitTx s).committed }
  | Except.error _ => Except.error ()

/-- The table contents visible (to the pool / other connections) after an
`add_cards_batch` call returns: on success the committed result; on error
the transaction handle is dropped uncommitted, its journal is rolled back,
and the committed rows at the moment of failure remain. -/
def add_cards_batch_visible (db : DBState) (cards : List Card) (now : Nat)
    (failOn : Nat → Bool) : DBState :=
  match batchLoop now failOn cards 0 { committed := db.cards, journal := [] } with
  | Except.ok s => { cards := (commitTx s).committed }
  | Except.error sFail => { cards := sFail.committed }

/-- Lookup in the caller-supplied catalog (`HashMap<String, Card>`),
modelled as an association list with unique keys; `catalogGet` is both
`contains_key` (via `isSome`) and `get`. -/
def catalogGet : List (String × Card) → String → Option Card
  | [], _ => none
  | (k, c) :: rest, h => if k == h then some c else catalogGet rest h

/-- The SQL row predicate `due_date <= ? OR due_date IS NULL` with the
bound parameter `today`. -/
def dueFilter (today : Int) (r : CardRecord) : Bool :=
  match r.due_date with
  | some d => decide (d ≤ today)
  | none => true

/-- The streaming loop of `DB::due_today` over the, already SQL-filtered,
rows: skip rows absent from the catalog, push the clone of the catalog
card, and after a push break once `cards.len() >= card_limit`. -/
def dueLoop (catalog : List (String × Card)) (card_limit : Option Nat) :
    List CardRecord → List Card → List Card
  | [], cards => cards
  | r :: rows, cards =>
    match catalogGet catalog r.card_hash with
    | none => dueLoop catalog card_limit rows cards
    | some card =>
      let cards' := cards ++ [card]
      match card_limit with
      | some k =>
        if k ≤ cards'.length then cards'
        else dueLoop catalog card_limit rows cards'
      | none => dueLoop catalog card_limit rows cards'

/-- `DB::due_today`: select the rows passing the due predicate for
`today` (computed from the process-local clock, here a parameter), then
run the collection loop with an empty accumulator. -/
def due_today (db : DBState) (catalog : List (String × Card))
    (card_limit : Option Nat) (today : Int) : List Card :=
  dueLoop catalog card_limit (db.cards.filter (dueFilter today)) []

/-- `DB::new`'s schema bootstrap, after the pool is opened: probe whether
the `cards` table exists (`probe_schema_exists`; its result or error is
the parameter `probe`), and only on `Ok(false)` run the schema script
(whose own outcome is the parameter `create`).  The return value records
whether the script ran. -/
def dbNew (probe : Except Unit Bool) (create : Except Unit Unit) :
    Except Unit Bool :=
  match probe with
  | Except.ok false =>
    match create with
    | Except.ok _ => Except.ok true
    | Except.error e => Except.error e
  | Except.ok true => Except.ok false
  | Except.error _ => Except.ok false

/-- Rows of the SQL-filtered stream that the collection loop will
actually push: those whose hash the catalog knows. -/
def eligCount (catalog : List (String × Card)) (rows : List CardRecord) : Nat :=
  (rows.filter (fun r => (catalogGet catalog r.card_hash).isSome)).length

/-- Number of eligible records for a due-today query: due (or never
scheduled) rows whose hash is a key of the catalog. -/
def eligibleCount (db : DBState) (catalog : List (String × Card))
    (today : Int) : Nat :=
  eligCount catalog (db.cards.filter (dueFilter today))

/-- Number of cards of a card list whose `card_hash` equals `h`. -/
def cardCount (cs : List Card) (h : String) : Nat :=
  (cs.filter (fun c => c.card_hash == h)).length

/-- The four operations of the store, as one step type: the two reads
carry their inputs but, being pure `SELECT`s, leave the table unchanged. -/
inductive Op where
  | addCard (card : Card) (now : Nat)
  | addBatch (cards : List Card) (now : Nat) (failOn : Nat → Bool)
  | existsQ (card : Card)
  | dueQ (catalog : List (String × Card)) (limit : Option Nat) (today : Int)

/-- The table contents visible after running one operation. -/
def applyOp (db : DBState) : Op → DBState
  | Op.addCard c n => add_card db c n
  | Op.addBatch cs n f => add_cards_batch_visible db cs n f
  | Op.existsQ _ => db
  | Op.dueQ _ _ _ => db

/-! ### Counting helper lemmas -/

theorem recListCount_eq_countP (l : List CardRecord) (h : String) :
    recListCount l h = l.countP (fun r => r.card_hash == h) := by
  simp [recListCount, List.countP_eq_length_filter]

theorem recListCount_append (l1 l2 : List CardRecord) (h : String) :
    recListCount (l1 ++ l2) h = recListCount l1 h + recListCount l2 h := by
  simp [recListCount, List.filter_append]

theorem recListCount_singleton_newRecord (h : String) (now : Nat) :
    recListCount [newRecord h now] h = 1 := by
  simp [recListCount, newRecord]

theorem card_exists_iff_pos (db : DBState) (card : Card) :
    card_exists db card = true ↔ 0 < countHash db card.card_hash := by
  simp [card_exists, poolExists, countHash]

theorem countHash_pos_iff_mem (db : DBState) (h : String) :
    0 < countHash db h ↔ ∃ r ∈ db.cards, r.card_hash = h := by
  rw [countHash, recListCount_eq_countP, List.countP_pos_iff]
  constructor
  · rintro ⟨r, hr, hh⟩
    exact ⟨r, hr, by simpa using hh⟩
  · rintro ⟨r, hr, hh⟩
    exact ⟨r, hr, by simpa using hh⟩

/-! ### Claim theorems: existence check, initialization, single insert -/

/-- C8: `card_exists` returns true exactly when a persisted record with
the card's hash exists, and as an operation it leaves the table
unchanged (pure read, no side effects). -/
theorem C8_card_exists_pure (db : DBState) (card : Card) :
    (card_exists db card = true ↔ ∃ r ∈ db.cards, r.card_hash = card.card_hash) ∧
    applyOp db (Op.existsQ card) = db := by
  refine ⟨?_, rfl⟩
  rw [card_exists_iff_pos]
  exact countHash_pos_iff_mem db card.card_hash

/-- C10: when the schema-existence probe itself errors, `DB::new`'s
`if let Ok(false)` arm does not match, so the error is discarded,
initialization succeeds, and the schema-creation script never runs
(result `ok false` = success with the script not executed), regardless
of what the script would have done. -/
theorem C10_init_discards_probe_error (e : Unit) (create : Except Unit Unit) :
    dbNew (Except.error e) create = Except.ok false := rfl

/-- C4: registering an already-present hash via `add_card` returns
success and changes nothing, and registering the same identity twice
(starting from a table satisfying the uniqueness invariant) leaves
exactly one record for that hash. -/
theorem C4_add_card_idempotent (db : DBState) (card : Card) (now n1 n2 : Nat) :
    (card_exists db card = true → add_card db card now = db) ∧
    (countHash db card.card_hash ≤ 1 →
      countHash (add_card (add_card db card n1) card n2) card.card_hash = 1) := by
  constructor
  · intro h
    simp [add_card, h]
  · intro hle
    by_cases h : card_exists db card = true
    · have h1 : add_card db card n1 = db := by simp [add_card, h]
      have h2 : add_card db card n2 = db := by simp [add_card, h]
      rw [h1, h2]
      have := (card_exists_iff_pos db card).mp h
      omega
    · have hb : card_exists db card = false := by
        revert h; cases card_exists db card <;> simp
      have hzero : countHash db card.card_hash = 0 := by
        have : ¬ 0 < countHash db card.card_hash := fun hp =>
          h ((card_exists_iff_pos db card).mpr hp)
        omega
      have h1 : add_card db card n1 =
          { cards := db.cards ++ [newRecord card.card_hash n1] } := by
        simp [add_card, hb]
      have hcount1 :
          countHash { cards := db.cards ++ [newRecord card.card_hash n1] }
            card.card_hash = 1 := by
        show recListCount (db.cards ++ [newRecord card.card_hash n1]) card.card_hash = 1
        rw [recListCount_append, recListCount_singleton_newRecord]
        have : recListCount db.cards card.card_hash = 0 := hzero
        omega
      have hex2 : card_exists { cards := db.cards ++ [newRecord card.card_hash n1] }
          ⟨card.card_hash⟩ = true := by
        rw [card_exists_iff_pos]
        show 0 < countHash { cards := db.cards ++ [newRecord card.card_hash n1] }
          card.card_hash
        omega
      have hex2' : card_exists { cards := db.cards ++ [newRecord card.card_hash n1] }
          card = true := hex2
      rw [h1]
      simp [add_card, hex2', hcount1]

/-- C4 witness: the no-op branch at a table already holding hash `a`, and
the exactly-one-record outcome of registering `a` twice from empty. -/
theorem C4_witness :
    add_card { cards := [newRecord "a" 0] } ⟨"a"⟩ 5 = { cards := [newRecord "a" 0] } ∧
    countHash (add_card (add_card { cards := [] } ⟨"a"⟩ 1) ⟨"a"⟩ 2) "a" = 1 :=
  ⟨(C4_add_card_idempotent { cards := [newRecord "a" 0] } ⟨"a"⟩ 5 0 0).1 (by decide),
   (C4_add_card_idempotent { cards := [] } ⟨"a"⟩ 0 1 2).2 (by decide)⟩

/-! ### Due-today query lemmas -/

theorem dueFilter_iff (today : Int) (r : CardRecord) :
    dueFilter today r = true ↔
      (r.due_date = none ∨ ∃ d, r.due_date = some d ∧ d ≤ today) := by
  cases hd : r.due_date <;> simp [dueFilter, hd]

theorem catalogGet_mem {catalog : List (String × Card)} {h : String} {c : Card}
    (hg : catalogGet catalog h = some c) : (h, c) ∈ catalog := by
  induction catalog with
  | nil => simp [catalogGet] at hg
  | cons p rest ih =>
    obtain ⟨k, c'⟩ := p
    by_cases hk : k = h
    · subst hk
      simp [catalogGet] at hg
      rw [← hg]
      exact List.mem_cons_self _ _
    · have hk' : (k == h) = false := by simpa using hk
      simp [catalogGet, hk'] at hg
      exact List.mem_cons_of_mem _ (ih hg)

theorem catalogGet_hash {catalog : List (String × Card)}
    (hwf : ∀ p ∈ catalog, (p.2).card_hash = p.1)
    {h : String} {c : Card} (hg : catalogGet catalog h = some c) :
    c.card_hash = h :=
  hwf (h, c) (catalogGet_mem hg)

theorem dueLoop_none_eq (catalog : List (String × Card)) :
    ∀ (rows : List CardRecord) (acc : List Card),
      dueLoop catalog none rows acc =
        acc ++ rows.filterMap (fun r => catalogGet catalog r.card_hash)
  | [], acc => by simp [dueLoop]
  | r :: rows, acc => by
    cases hg : catalogGet catalog r.card_hash with
    | none => simp [dueLoop, hg, dueLoop_none_eq catalog rows acc]
    | some card =>
      simp [dueLoop, hg, dueLoop_none_eq catalog rows (acc ++ [card])]

theorem mem_due_today_none (db : DBState) (catalog : List (String × Card))
    (today : Int) (c : Card) :
    c ∈ due_today db catalog none today ↔
      ∃ a ∈ db.cards.filter (dueFilter today),
        catalogGet catalog a.card_hash = some c := by
  rw [due_today, dueLoop_none_eq]
  simp [List.mem_filterMap]

/-- C1: with no limit, the due-today query returns the catalog's card for
a record (under the table's unique-hash invariant and a catalog whose
values carry their keys' hashes) exactly when the record's `due_date` is
null or on/before today AND its hash is a key of the catalog; a record
whose hash is absent from the catalog contributes nothing — silent
exclusion, and the query is a total function, so no error. -/
theorem C1_due_set_correct (db : DBState) (catalog : List (String × Card))
    (today : Int) (r : CardRecord)
    (hwf : ∀ p ∈ catalog, (p.2).card_hash = p.1)
    (hnd : (db.cards.map (fun x => x.card_hash)).Nodup)
    (hr : r ∈ db.cards) :
    (((r.due_date = none ∨ ∃ d, r.due_date = some d ∧ d ≤ today) ∧
        (catalogGet catalog r.card_hash).isSome) ↔
      ∃ c, catalogGet catalog r.card_hash = some c ∧
        c ∈ due_today db catalog none today) ∧
    (catalogGet catalog r.card_hash = none →
      ¬ ∃ c ∈ due_today db catalog none today, c.card_hash = r.card_hash) := by
  constructor
  · constructor
    · rintro ⟨hdue, hsome⟩
      obtain ⟨c, hc⟩ := Option.isSome_iff_exists.mp hsome
      refine ⟨c, hc, ?_⟩
      rw [mem_due_today_none]
      refine ⟨r, ?_, hc⟩
      rw [List.mem_filter]
      exact ⟨hr, (dueFilter_iff today r).mpr hdue⟩
    · rintro ⟨c, hc, hmem⟩
      rw [mem_due_today_none] at hmem
      obtain ⟨a, haf, hag⟩ := hmem
      rw [List.mem_filter] at haf
      obtain ⟨ha, hadue⟩ := haf
      have h1 : c.card_hash = a.card_hash := catalogGet_hash hwf hag
      have h2 : c.card_hash = r.card_hash := catalogGet_hash hwf hc
      have har : a = r :=
        List.inj_on_of_nodup_map hnd ha hr (by rw [← h1, h2])
      subst har
      exact ⟨(dueFilter_iff today a).mp hadue, by simp [hc]⟩
  · rintro hnone ⟨c, hmem, hch⟩
    rw [mem_due_today_none] at hmem
    obtain ⟨a, haf, hag⟩ := hmem
    have h1 : c.card_hash = a.card_hash := catalogGet_hash hwf hag
    rw [← hch, h1] at hnone
    simp [hag] at hnone

/-- C1 witness: a one-row table with a null `due_date` and a singleton
catalog containing its hash; both conjuncts instantiated and the
returned card exhibited. -/
theorem C1_witness :
    ∃ c, catalogGet [("a", Card.mk "a")] (newRecord "a" 0).card_hash = some c ∧
      c ∈ due_today { cards := [newRecord "a" 0] } [("a", Card.mk "a")] none 0 :=
  ((C1_due_set_correct { cards := [newRecord "a" 0] } [("a", Card.mk "a")] 0
      (newRecord "a" 0) (by decide) (by decide) (by decide)).1).mp
    (by constructor
        · exact Or.inl rfl
        · decide)

theorem dueLoop_some_length (catalog : List (String × Card)) (k : Nat) :
    ∀ (rows : List CardRecord) (acc : List Card), acc.length < k →
      (dueLoop catalog (some k) rows acc).length =
        min (acc.length + eligCount catalog rows) k
  | [], acc, hacc => by
    simp only [dueLoop, eligCount, List.filter_nil, List.length_nil, Nat.add_zero]
    omega
  | r :: rows, acc, hacc => by
    cases hg : catalogGet catalog r.card_hash with
    | none =>
      have hrec := dueLoop_some_length catalog k rows acc hacc
      have helig : eligCount catalog (r :: rows) = eligCount catalog rows := by
        simp [eligCount, List.filter_cons, hg]
      simp only [dueLoop, hg]
      rw [hrec, helig]
    | some card =>
      have helig : eligCount catalog (r :: rows) = eligCount catalog rows + 1 := by
        simp [eligCount, List.filter_cons, hg]
      have hlen : (acc ++ [card]).length = acc.length + 1 := by simp
      by_cases hfull : k ≤ (acc ++ [card]).length
      · simp only [dueLoop, hg]
        rw [if_pos hfull, hlen, helig]
        rw [hlen] at hfull
        omega
      · have hlt : (acc ++ [card]).length < k := by omega
        have hrec := dueLoop_some_length catalog k rows (acc ++ [card]) hlt
        simp only [dueLoop, hg]
        rw [if_neg hfull, hrec, hlen, helig]
        omega

/-- C2 (amended): for a supplied `card_limit = k` with `k ≥ 1`, the due
query returns at most `k` cards, and exactly `k` when more than `k`
eligible records exist; the `k = 0` case is excluded (the limit check
runs only after a push, so a zero limit still yields one card — see the
counterexample). -/
theorem C2_limit_enforcement (db : DBState) (catalog : List (String × Card))
    (today : Int) (k : Nat) (hk : 1 ≤ k) :
    (due_today db catalog (some k) today).length ≤ k ∧
    (k < eligibleCount db catalog today →
      (due_today db catalog (some k) today).length = k) := by
  have h := dueLoop_some_length catalog k (db.cards.filter (dueFilter today)) []
    (by simpa using hk)
  rw [due_today, h]
  simp only [List.length_nil, Nat.zero_add, eligibleCount]
  omega

/-- C2 counterexample: one never-scheduled row whose hash the catalog
knows, queried with `card_limit = 0`: the loop pushes the card before it
first checks the limit, so one card is returned and the claimed bound
`result size ≤ card_limit` fails at `k = 0`. -/
theorem C2_counterexample :
    (due_today { cards := [newRecord "a" 0] } [("a", Card.mk "a")]
        (some 0) 0).length = 1 ∧
    ¬ ((due_today { cards := [newRecord "a" 0] } [("a", Card.mk "a")]
        (some 0) 0).length ≤ 0) := by
  decide

/-- C2 witness: two eligible rows, limit 1: exactly one card returned. -/
theorem C2_witness :
    (due_today { cards := [newRecord "a" 0, newRecord "b" 0] }
        [("a", Card.mk "a"), ("b", Card.mk "b")] (some 1) 0).length = 1 :=
  (C2_limit_enforcement { cards := [newRecord "a" 0, newRecord "b" 0] }
      [("a", Card.mk "a"), ("b", Card.mk "b")] 0 1 (by decide)).2 (by decide)

/-! ### Batch transaction lemmas -/

theorem txInsert_ok_committed {s : SqliteState} {r : CardRecord} {inject : Bool}
    {s' : SqliteState} (h : txInsert s r inject = Except.ok s') :
    s'.committed = s.committed := by
  unfold txInsert at h
  split_ifs at h
  cases h
  rfl

theorem txInsert_ok_journal {s : SqliteState} {r : CardRecord} {inject : Bool}
    {s' : SqliteState} (h : txInsert s r inject = Except.ok s') :
    s'.journal = s.journal ++ [r] := by
  unfold txInsert at h
  split_ifs at h
  cases h
  rfl

theorem batchLoop_ok_committed (now : Nat) (failOn : Nat → Bool) :
    ∀ (cards : List Card) (i : Nat) (s s' : SqliteState),
      batchLoop now failOn cards i s = Except.ok s' → s'.committed = s.committed
  | [], i, s, s', h => by
    simp only [batchLoop] at h
    cases h
    rfl
  | card :: rest, i, s, s', h => by
    simp only [batchLoop] at h
    by_cases hp : poolExists s.committed card = true
    · rw [if_pos hp] at h
      exact batchLoop_ok_committed now failOn rest (i + 1) s s' h
    · rw [if_neg hp] at h
      cases htx : txInsert s (newRecord card.card_hash now) (failOn i) with
      | ok s1 =>
        rw [htx] at h
        rw [batchLoop_ok_committed now failOn rest (i + 1) s1 s' h]
        exact txInsert_ok_committed htx
      | error e =>
        rw [htx] at h
        cases h

theorem batchLoop_err_committed (now : Nat) (failOn : Nat → Bool) :
    ∀ (cards : List Card) (i : Nat) (s sF : SqliteState),
      batchLoop now failOn cards i s = Except.error sF → sF.committed = s.committed
  | [], i, s, sF, h => by
    simp only [batchLoop] at h
    exact Except.noConfusion h
  | card :: rest, i, s, sF, h => by
    simp only [batchLoop] at h
    by_cases hp : poolExists s.committed card = true
    · rw [if_pos hp] at h
      exact batchLoop_err_committed now failOn rest (i + 1) s sF h
    · rw [if_neg hp] at h
      cases htx : txInsert s (newRecord card.card_hash now) (failOn i) with
      | ok s1 =>
        rw [htx] at h
        rw [batchLoop_err_committed now failOn rest (i + 1) s1 sF h]
        exact txInsert_ok_committed htx
      | error e =>
        rw [htx] at h
        cases h
        rfl

theorem batchLoop_ok_journal_rows (now : Nat) (failOn : Nat → Bool) :
    ∀ (cards : List Card) (i : Nat) (s s' : SqliteState),
      batchLoop now failOn cards i s = Except.ok s' →
      ∀ r ∈ s'.journal,
        r ∈ s.journal ∨ ∃ c ∈ cards, r = newRecord c.card_hash now
  | [], i, s, s', h => by
    simp only [batchLoop] at h
    cases h
    intro r hr
    exact Or.inl hr
  | card :: rest, i, s, s', h => by
    simp only [batchLoop] at h
    by_cases hp : poolExists s.committed card = true
    · rw [if_pos hp] at h
      intro r hr
      rcases batchLoop_ok_journal_rows now failOn rest (i + 1) s s' h r hr with
        hin | ⟨c, hc, he⟩
      · exact Or.inl hin
      · exact Or.inr ⟨c, List.mem_cons_of_mem _ hc, he⟩
    · rw [if_neg hp] at h
      cases htx : txInsert s (newRecord card.card_hash now) (failOn i) with
      | ok s1 =>
        rw [htx] at h
        intro r hr
        rcases batchLoop_ok_journal_rows now failOn rest (i + 1) s1 s' h r hr with
          hin | ⟨c, hc, he⟩
        · rw [txInsert_ok_journal htx] at hin
          rcases List.mem_append.mp hin with hin' | hin'
          · exact Or.inl hin'
          · have : r = newRecord card.card_hash now := by simpa using hin'
            exact Or.inr ⟨card, List.mem_cons_self _ _, this⟩
        · exact Or.inr ⟨c, List.mem_cons_of_mem _ hc, he⟩
      | error e =>
        rw [htx] at h
        cases h

/-- Rows added by a successful batch: every row of the result that was
not already in the table is the fresh default record of one of the
batch's cards, stamped with the batch's single timestamp. -/
theorem batch_ok_new_rows (db : DBState) (cards : List Card) (now : Nat)
    (failOn : Nat → Bool) (db' : DBState)
    (h : add_cards_batch db cards now failOn = Except.ok db') :
    db'.cards = db.cards ++ (db'.cards.drop db.cards.length) ∧
    ∀ r ∈ db'.cards, r ∉ db.cards →
      ∃ c ∈ cards, r = newRecord c.card_hash now := by
  unfold add_cards_batch at h
  cases hres : batchLoop now failOn cards 0 { committed := db.cards, journal := [] } with
  | ok s =>
    rw [hres] at h
    cases h
    have hcom : s.committed = db.cards :=
      batchLoop_ok_committed now failOn cards 0 _ s hres
    constructor
    · show (commitTx s).committed = db.cards ++ ((commitTx s).committed.drop db.cards.length)
      rw [commitTx, hcom]
      simp
    · intro r hr hnot
      have hr' : r ∈ s.committed ++ s.journal := hr
      rcases List.mem_append.mp hr' with hin | hin
      · exact absurd (hcom ▸ hin) hnot
      · rcases batchLoop_ok_journal_rows now failOn cards 0 _ s hres r hin with
          hemp | hc
        · simp at hemp
        · exact hc
  | error sF =>
    rw [hres] at h
    cases h

/-- C3: batch registration is atomic — on success the committed result
is exactly what the call returns, and on any error during the loop the
transaction is dropped uncommitted and the table visible afterwards is
the table from before the call. -/
theorem C3_batch_atomicity (db : DBState) (cards : List Card) (now : Nat)
    (failOn : Nat → Bool) :
    (∀ db', add_cards_batch db cards now failOn = Except.ok db' →
      add_cards_batch_visible db cards now failOn = db') ∧
    (add_cards_batch db cards now failOn = Except.error () →
      add_cards_batch_visible db cards now failOn = db) := by
  unfold add_cards_batch add_cards_batch_visible
  cases hres : batchLoop now failOn cards 0 { committed := db.cards, journal := [] } with
  | ok s =>
    constructor
    · intro db' h
      cases h
      rfl
    · intro h
      cases h
  | error sF =>
    constructor
    · intro db' h
      cases h
    · intro _
      have : sF.committed = db.cards :=
        batchLoop_err_committed now failOn cards 0 _ sF hres
    -- the dropped transaction leaves exactly the committed rows visible
      cases db
      simpa using this

/-- C3 witness: a successful one-card batch commits its insert, and the
same batch with an injected storage failure on its insert leaves the
empty table unchanged. -/
theorem C3_witness :
    add_cards_batch_visible { cards := [] } [Card.mk "a"] 7 (fun _ => false) =
      { cards := [newRecord "a" 7] } ∧
    add_cards_batch_visible { cards := [] } [Card.mk "a"] 7 (fun _ => true) =
      { cards := [] } :=
  ⟨(C3_batch_atomicity { cards := [] } [Card.mk "a"] 7 (fun _ => false)).1
      { cards := [newRecord "a" 7] } rfl,
   (C3_batch_atomicity { cards := [] } [Card.mk "a"] 7 (fun _ => true)).2 rfl⟩

/-- C9: the store is insert-only — every operation (single insert, batch
insert, existence check, due query) leaves every pre-existing row in
place and unchanged: the prior table is a prefix of the visible table
afterwards. -/
theorem C9_insert_only (db : DBState) (op : Op) :
    ∃ t, (applyOp db op).cards = db.cards ++ t := by
  cases op with
  | addCard card n =>
    by_cases h : card_exists db card = true
    · exact ⟨[], by simp [applyOp, add_card, h]⟩
    · exact ⟨[newRecord card.card_hash n], by simp [applyOp, add_card, h]⟩
  | addBatch cs n f =>
    show ∃ t, (add_cards_batch_visible db cs n f).cards = db.cards ++ t
    unfold add_cards_batch_visible
    cases hres : batchLoop n f cs 0 { committed := db.cards, journal := [] } with
    | ok s =>
      refine ⟨s.journal, ?_⟩
      show (commitTx s).committed = db.cards ++ s.journal
      rw [commitTx]
      rw [batchLoop_ok_committed n f cs 0 _ s hres]
    | error sF =>
      refine ⟨[], ?_⟩
      show sF.committed = db.cards ++ []
      rw [batchLoop_err_committed n f cs 0 _ sF hres]
      simp
  | existsQ card => exact ⟨[], by simp [applyOp]⟩
  | dueQ catalog limit today => exact ⟨[], by simp [applyOp]⟩

/-! ### Fresh-record defaults and timestamps -/

/-- C6: a record freshly inserted by `add_card` or by a successful
`add_cards_batch` has `last_reviewed_at`, `stability`, `difficulty`,
`interval_raw` and `due_date` all null, `interval_days` 0,
`review_count` 0, and `added_at` the instant captured at registration. -/
theorem C6_fresh_record_defaults (db : DBState) (card : Card)
    (cards : List Card) (now : Nat) (failOn : Nat → Bool) :
    (card_exists db card = false →
      ∃ rec, add_card db card now = { cards := db.cards ++ [rec] } ∧
        rec.card_hash = card.card_hash ∧ rec.added_at = now ∧
        rec.last_reviewed_at = none ∧ rec.stability = none ∧
        rec.difficulty = none ∧ rec.interval_raw = none ∧
        rec.interval_days = 0 ∧ rec.due_date = none ∧ rec.review_count = 0) ∧
    (∀ db', add_cards_batch db cards now failOn = Except.ok db' →
      ∀ r ∈ db'.cards, r ∉ db.cards →
        r.added_at = now ∧ r.last_reviewed_at = none ∧ r.stability = none ∧
        r.difficulty = none ∧ r.interval_raw = none ∧ r.interval_days = 0 ∧
        r.due_date = none ∧ r.review_count = 0) := by
  constructor
  · intro h
    refine ⟨newRecord card.card_hash now, ?_,
      rfl, rfl, rfl, rfl, rfl, rfl, rfl, rfl, rfl⟩
    simp [add_card, h]
  · intro db' h r hr hnot
    obtain ⟨c, _, he⟩ := (batch_ok_new_rows db cards now failOn db' h).2 r hr hnot
    subst he
    exact ⟨rfl, rfl, rfl, rfl, rfl, rfl, rfl, rfl⟩

/-- C6 witness: the single-insert branch at hash `a`, and the one row
inserted by a one-card batch, both with the default fields. -/
theorem C6_witness :
    (∃ rec, add_card { cards := [] } (Card.mk "a") 7 = { cards := [] ++ [rec] } ∧
      rec.card_hash = "a" ∧ rec.added_at = 7 ∧ rec.last_reviewed_at = none ∧
      rec.stability = none ∧ rec.difficulty = none ∧ rec.interval_raw = none ∧
      rec.interval_days = 0 ∧ rec.due_date = none ∧ rec.review_count = 0) ∧
    ((newRecord "a" 7).added_at = 7 ∧ (newRecord "a" 7).last_reviewed_at = none ∧
      (newRecord "a" 7).stability = none ∧ (newRecord "a" 7).difficulty = none ∧
      (newRecord "a" 7).interval_raw = none ∧ (newRecord "a" 7).interval_days = 0 ∧
      (newRecord "a" 7).due_date = none ∧ (newRecord "a" 7).review_count = 0) :=
  ⟨(C6_fresh_record_defaults { cards := [] } (Card.mk "a") [] 7
      (fun _ => false)).1 rfl,
   (C6_fresh_record_defaults { cards := [] } (Card.mk "a") [Card.mk "a"] 7
      (fun _ => false)).2 { cards := [newRecord "a" 7] } rfl
      (newRecord "a" 7) (by simp) (by simp)⟩

/-- C7: every row inserted by one batch call carries the batch's single
timestamp, captured once before the loop; a single `add_card` call
stamps its row with the timestamp captured inside that very call. -/
theorem C7_timestamp_asymmetry (db : DBState) (cards : List Card) (now : Nat)
    (failOn : Nat → Bool) (card : Card) (n : Nat) :
    (∀ db', add_cards_batch db cards now failOn = Except.ok db' →
      ∀ r ∈ db'.cards, r ∉ db.cards → r.added_at = now) ∧
    (card_exists db card = false →
      ∃ rec, add_card db card n = { cards := db.cards ++ [rec] } ∧
        rec.added_at = n) := by
  constructor
  · intro db' h r hr hnot
    obtain ⟨c, _, he⟩ := (batch_ok_new_rows db cards now failOn db' h).2 r hr hnot
    subst he
    rfl
  · intro h
    exact ⟨newRecord card.card_hash n, by simp [add_card, h], rfl⟩

/-- C7 witness: the row of a one-card batch stamped with the batch
timestamp 7, and a single insert of a different card stamped with its
own call's timestamp 9. -/
theorem C7_witness :
    (newRecord "a" 7).added_at = 7 ∧
    (∃ rec, add_card { cards := [] } (Card.mk "b") 9 = { cards := [] ++ [rec] } ∧
      rec.added_at = 9) :=
  ⟨(C7_timestamp_asymmetry { cards := [] } [Card.mk "a"] 7 (fun _ => false)
      (Card.mk "b") 9).1 { cards := [newRecord "a" 7] } rfl
      (newRecord "a" 7) (by simp) (by simp),
   (C7_timestamp_asymmetry { cards := [] } [Card.mk "a"] 7 (fun _ => false)
      (Card.mk "b") 9).2 rfl⟩

/-! ### Batch deduplication (C5) -/

theorem poolExists_hash_congr (L : List CardRecord) (c c' : Card)
    (h : c.card_hash = c'.card_hash) : poolExists L c = poolExists L c' := by
  rw [poolExists, poolExists, h]

theorem poolExists_eq_false_any (L : List CardRecord) (c : Card)
    (h : poolExists L c = false) :
    L.any (fun x => x.card_hash == c.card_hash) = false := by
  rw [List.any_eq_false]
  intro x hx hbe
  have hpos : 0 < recListCount L c.card_hash := by
    rw [recListCount_eq_countP, List.countP_pos_iff]
    exact ⟨x, hx, hbe⟩
  rw [poolExists] at h
  simp at h
  omega

theorem batchLoop_noFail (now : Nat) :
    ∀ (cards : List Card) (i : Nat) (s : SqliteState),
      (cards.map (fun c => c.card_hash)).Nodup →
      (∀ c ∈ cards, ∀ r ∈ s.journal, r.card_hash ≠ c.card_hash) →
      batchLoop now (fun _ => false) cards i s =
        Except.ok { committed := s.committed
                    journal := s.journal ++
                      (cards.filter (fun c => ! poolExists s.committed c)).map
                        (fun c => newRecord c.card_hash now) }
  | [], i, s, _, _ => by
    cases s
    simp [batchLoop]
  | card :: rest, i, s, hnd, hj => by
    rw [List.map_cons, List.nodup_cons] at hnd
    obtain ⟨hni, hnd'⟩ := hnd
    by_cases hp : poolExists s.committed card = true
    · simp only [batchLoop]
      rw [if_pos hp]
      rw [batchLoop_noFail now rest (i + 1) s hnd'
        (fun c hc => hj c (List.mem_cons_of_mem _ hc))]
      simp [List.filter_cons, hp]
    · have hp' : poolExists s.committed card = false := by
        revert hp; cases poolExists s.committed card <;> simp
      have hanyc : s.committed.any
          (fun x => x.card_hash == card.card_hash) = false :=
        poolExists_eq_false_any s.committed card hp'
      have hanyj : s.journal.any
          (fun x => x.card_hash == card.card_hash) = false := by
        rw [List.any_eq_false]
        intro r hr hbe
        exact hj card (List.mem_cons_self _ _) r hr (by simpa using hbe)
      have hany : ((s.committed ++ s.journal).any
          (fun x => x.card_hash == (newRecord card.card_hash now).card_hash))
            = false := by
        rw [List.any_append]
        show (s.committed.any (fun x => x.card_hash == card.card_hash) ||
          s.journal.any (fun x => x.card_hash == card.card_hash)) = false
        rw [hanyc, hanyj]
        rfl
      have htx : txInsert s (newRecord card.card_hash now) false =
          Except.ok { s with journal :=
            s.journal ++ [newRecord card.card_hash now] } := by
        unfold txInsert
        rw [if_neg (by simp), if_neg (by simp [hany])]
      simp only [batchLoop]
      rw [if_neg (by simp [hp'])]
      simp only [htx]
      rw [batchLoop_noFail now rest (i + 1)
        { s with journal := s.journal ++ [newRecord card.card_hash now] } hnd' ?_]
      · simp [List.filter_cons, hp']
      · intro c hc r hr
        rcases List.mem_append.mp hr with hr' | hr'
        · exact hj c (List.mem_cons_of_mem _ hc) r hr'
        · have hre : r = newRecord card.card_hash now := by simpa using hr'
          subst hre
          show card.card_hash ≠ c.card_hash
          intro hcontra
          exact hni (hcontra ▸ List.mem_map_of_mem (fun c => c.card_hash) hc)

theorem cardCount_le_one_of_nodup (cs : List Card)
    (h : (cs.map (fun c => c.card_hash)).Nodup) (hs : String) :
    cardCount cs hs ≤ 1 := by
  induction cs with
  | nil => simp [cardCount]
  | cons c rest ih =>
    rw [List.map_cons, List.nodup_cons] at h
    obtain ⟨hni, hnd⟩ := h
    by_cases hc : c.card_hash = hs
    · have hzero : cardCount rest hs = 0 := by
        rw [cardCount, List.length_eq_zero, List.filter_eq_nil_iff]
        intro x hx hbe
        have : x.card_hash = hs := by simpa using hbe
        exact hni (by rw [hc, ← this]; exact List.mem_map_of_mem _ hx)
      have : cardCount (c :: rest) hs = cardCount rest hs + 1 := by
        simp [cardCount, List.filter_cons, hc]
      omega
    · have : cardCount (c :: rest) hs = cardCount rest hs := by
        simp [cardCount, List.filter_cons, hc]
      rw [this]
      exact ih hnd

theorem cardCount_pos_of_mem {cs : List Card} {c : Card} (h : c ∈ cs) :
    0 < cardCount cs c.card_hash := by
  rw [cardCount, ← List.countP_eq_length_filter, List.countP_pos_iff]
  exact ⟨c, h, by simp⟩

theorem cardCount_filter_le (p : Card → Bool) (cs : List Card) (hs : String) :
    cardCount (cs.filter p) hs ≤ cardCount cs hs :=
  (List.Sublist.filter _ (List.filter_sublist cs)).length_le

theorem recListCount_map_newRecord (cs : List Card) (now : Nat) (hs : String) :
    recListCount (cs.map (fun c => newRecord c.card_hash now)) hs =
      cardCount cs hs := by
  induction cs with
  | nil => rfl
  | cons c rest ih =>
    have hh : ((newRecord c.card_hash now).card_hash == hs)
        = (c.card_hash == hs) := rfl
    simp only [List.map_cons, recListCount, cardCount, List.filter_cons, hh]
      at ih ⊢
    cases hcb : (c.card_hash == hs) <;> simp [hcb, ih]

theorem cardCount_filter_notPool_zero (L : List CardRecord) (c : Card)
    (cs : List Card) (hp : poolExists L c = true) :
    cardCount (cs.filter (fun x => ! poolExists L x)) c.card_hash = 0 := by
  rw [cardCount, ← List.countP_eq_length_filter, List.countP_eq_zero]
  intro x hx hbe
  rw [List.mem_filter] at hx
  obtain ⟨_, hpx⟩ := hx
  have hxe : x.card_hash = c.card_hash := by simpa using hbe
  rw [poolExists_hash_congr L x c hxe, hp] at hpx
  simp at hpx

/-- C5 (amended): a batch whose cards have pairwise-distinct hashes,
run without injected storage failures, skips every card whose hash is
already persisted, succeeds, and leaves exactly one record per hash of
the batch (under the table's unique-hash invariant). -/
theorem C5_batch_skips_persisted (db : DBState) (cards : List Card) (now : Nat)
    (hdb : ∀ h, countHash db h ≤ 1)
    (hnd : (cards.map (fun c => c.card_hash)).Nodup) :
    ∃ db', add_cards_batch db cards now (fun _ => false) = Except.ok db' ∧
      ∀ c ∈ cards, countHash db' c.card_hash = 1 := by
  have hloop := batchLoop_noFail now cards 0
    { committed := db.cards, journal := [] } hnd
    (by intro c hc r hr; simp at hr)
  refine ⟨{ cards := db.cards ++
              (cards.filter (fun c => ! poolExists db.cards c)).map
                (fun c => newRecord c.card_hash now) }, ?_, ?_⟩
  · unfold add_cards_batch
    rw [hloop]
    rfl
  · intro c hc
    show recListCount (db.cards ++
      (cards.filter (fun c => ! poolExists db.cards c)).map
        (fun c => newRecord c.card_hash now)) c.card_hash = 1
    rw [recListCount_append, recListCount_map_newRecord]
    by_cases hp : poolExists db.cards c = true
    · have hpos : 0 < recListCount db.cards c.card_hash := by
        rw [poolExists] at hp
        simpa using hp
      have hle : recListCount db.cards c.card_hash ≤ 1 := hdb c.card_hash
      have h0 := cardCount_filter_notPool_zero db.cards c cards hp
      omega
    · have hp' : poolExists db.cards c = false := by
        revert hp; cases poolExists db.cards c <;> simp
      have h0 : recListCount db.cards c.card_hash = 0 := by
        rw [poolExists] at hp'
        simp at hp'
        omega
      have hmem : c ∈ cards.filter (fun x => ! poolExists db.cards x) :=
        List.mem_filter.mpr ⟨hc, by simp [hp']⟩
      have hpos := cardCount_pos_of_mem hmem
      have hle := cardCount_filter_le (fun x => ! poolExists db.cards x)
        cards c.card_hash
      have hle1 := cardCount_le_one_of_nodup cards hnd c.card_hash
      omega

/-- C5 counterexample: a batch that repeats a fresh hash. The existence
check runs on the pool and cannot see the transaction's own uncommitted
insert, so the second occurrence violates the unique-hash constraint:
the call errors instead of succeeding, and no record is persisted. -/
theorem C5_counterexample :
    add_cards_batch { cards := [] } [Card.mk "a", Card.mk "a"] 0
      (fun _ => false) = Except.error () ∧
    countHash (add_cards_batch_visible { cards := [] }
      [Card.mk "a", Card.mk "a"] 0 (fun _ => false)) "a" = 0 := by
  constructor
  · rfl
  · rfl

/-- C5 witness: a two-card batch with distinct hashes, one of them
already persisted, succeeds with one record per hash. -/
theorem C5_witness :
    ∃ db', add_cards_batch { cards := [newRecord "a" 0] }
        [Card.mk "a", Card.mk "b"] 3 (fun _ => false) = Except.ok db' ∧
      ∀ c ∈ [Card.mk "a", Card.mk "b"], countHash db' c.card_hash = 1 :=
  C5_batch_skips_persisted { cards := [newRecord "a" 0] }
    [Card.mk "a", Card.mk "b"] 3
    (by
      intro h
      show recListCount [newRecord "a" 0] h ≤ 1
      rw [recListCount]
      cases hb : (("a" : String) == h) <;>
        simp [newRecord, List.filter_cons, hb])
    (by decide)

end Repeat
